import Mathlib

/-!
Verification of the statement-execution core of the Ren'Py AST module
(`renpy/ast.py`) against its natural-language specification.

The Python source is shallowly embedded: node objects become Lean
structures over an arena of node identifiers, the mutable execution
context becomes explicit state passing, the black-box expression
evaluator and external collaborators (display, chooser, translation
table, call stack) become function parameters, and fallible code
returns `Except`.  Behavior of repository code that is referenced but
not part of the `ast.py` source (the execution context's call-stack
primitives, script label lookup, and the translation-table lookup) is
modelled from the specification text, and each such definition is
marked `Modelled from the spec:` in its doc comment.
-/

namespace Spec2Proof

/-! ## Reachability engine (`get_reachable_nodes`, ast.py:831-888)

Nodes of the (possibly cyclic) node graph are identified by elements of
`Fin n`; `g i` embeds `node.get_reachable()` and `v` embeds the pairwise
`node_validator` filter predicate.  The `seen` set embeds the Python
`set` of already-seen nodes. -/

/-- Embedding of `get_reachable_nodes` (ast.py:831-888): breadth-first
worklist traversal.  A popped node already in `seen` is skipped;
otherwise it is marked seen, appended to the result, and its
`get_reachable()` successors that are unseen and accepted by the
validator are appended to the worklist. -/
def getReachableNodes {n : Nat} (g : Fin n → List (Fin n)) (v : Fin n → Fin n → Bool) :
    List (Fin n) → Finset (Fin n) → List (Fin n)
  | [], _ => []
  | node :: rest, seen =>
    if node ∈ seen then
      getReachableNodes g v rest seen
    else
      node :: getReachableNodes g v
        (rest ++ (g node).filter (fun m => decide (m ∉ insert node seen) && v node m))
        (insert node seen)
termination_by l seen => ((Finset.univ \ seen).card, l.length)
decreasing_by
  · exact Prod.Lex.right _ (by simp)
  · apply Prod.Lex.left
    have hset : Finset.univ \ insert node seen = (Finset.univ \ seen).erase node := by
      ext x
      simp only [Finset.mem_sdiff, Finset.mem_insert, Finset.mem_erase, Finset.mem_univ,
        true_and]
      tauto
    rw [hset]
    exact Finset.card_erase_lt_of_mem (by simpa using ‹node ∉ seen›)

/-- The nodes emitted (marked seen, added to the result) while one
worklist segment is processed, in order. -/
def emitOut {n : Nat} : List (Fin n) → Finset (Fin n) → List (Fin n)
  | [], _ => []
  | node :: rest, seen =>
    if node ∈ seen then emitOut rest seen
    else node :: emitOut rest (insert node seen)

/-- The successors appended to the worklist while one worklist segment
is processed, in order. -/
def emitSucc {n : Nat} (g : Fin n → List (Fin n)) (v : Fin n → Fin n → Bool) :
    List (Fin n) → Finset (Fin n) → List (Fin n)
  | [], _ => []
  | node :: rest, seen =>
    if node ∈ seen then emitSucc g v rest seen
    else
      (g node).filter (fun m => decide (m ∉ insert node seen) && v node m)
        ++ emitSucc g v rest (insert node seen)

/-- The seen set after one worklist segment is processed. -/
def emitSeen {n : Nat} : List (Fin n) → Finset (Fin n) → Finset (Fin n)
  | [], seen => seen
  | node :: rest, seen =>
    if node ∈ seen then emitSeen rest seen
    else emitSeen rest (insert node seen)

/-- Reference breadth-first traversal, following the specification text:
the result is the (not yet seen) entry nodes first, in their given
order, then the nodes discovered from them, level by level, in
breadth-first discovery order. -/
def bfsLayers {n : Nat} (g : Fin n → List (Fin n)) (v : Fin n → Fin n → Bool) :
    List (Fin n) → Finset (Fin n) → List (Fin n)
  | frontier, seen =>
    if h : frontier = [] then []
    else
      emitOut frontier seen ++
        bfsLayers g v (emitSucc g v frontier seen) (emitSeen frontier seen)
termination_by frontier seen => ((Finset.univ \ seen).card, frontier.length)
decreasing_by
  have hsub : ∀ (fr : List (Fin n)) (s : Finset (Fin n)), s ⊆ emitSeen fr s := by
    intro fr
    induction fr with
    | nil => intro s; simp [emitSeen]
    | cons a l ih =>
      intro s
      by_cases ha : a ∈ s
      · simpa [emitSeen, if_pos ha] using ih s
      · simp only [emitSeen, if_neg ha]
        exact le_trans (Finset.subset_insert _ _) (ih _)
  rcases Decidable.em (emitSeen frontier seen = seen) with hs | hs
  · rw [hs]
    apply Prod.Lex.right
    have hsucc : ∀ (fr : List (Fin n)) (s : Finset (Fin n)),
        emitSeen fr s = s → emitSucc g v fr s = [] := by
      intro fr
      induction fr with
      | nil => intro s _; simp [emitSucc]
      | cons a l ih =>
        intro s hse
        by_cases ha : a ∈ s
        · simp only [emitSeen, if_pos ha] at hse
          simp only [emitSucc, if_pos ha]
          exact ih s hse
        · exfalso
          simp only [emitSeen, if_neg ha] at hse
          exact ha (hse ▸ hsub l (insert a s) (Finset.mem_insert_self a s))
    rw [hsucc frontier seen hs]
    simpa using List.length_pos.mpr h
  · apply Prod.Lex.left
    have hss : seen ⊂ emitSeen frontier seen :=
      (hsub frontier seen).ssubset_of_ne (Ne.symm hs)
    have h1 : (Finset.univ \ emitSeen frontier seen).card =
        n - (emitSeen frontier seen).card := by
      rw [Finset.card_sdiff (Finset.subset_univ _), Finset.card_univ, Fintype.card_fin]
    have h2 : (Finset.univ \ seen).card = n - seen.card := by
      rw [Finset.card_sdiff (Finset.subset_univ _), Finset.card_univ, Fintype.card_fin]
    rw [h1, h2]
    have hlt : seen.card < (emitSeen frontier seen).card := Finset.card_lt_card hss
    have hle : (emitSeen frontier seen).card ≤ n := by
      simpa using Finset.card_le_card (Finset.subset_univ (emitSeen frontier seen))
    omega

/-- First-occurrence deduplication: keeps the first occurrence of each
element, preserving order.  Used to state the "entry nodes first, in
their given order, without duplicates" part of the specification. -/
def dedupFirst {n : Nat} : List (Fin n) → List (Fin n)
  | [] => []
  | a :: l => a :: dedupFirst (l.filter (fun x => x ≠ a))
termination_by l => l.length
decreasing_by
  simp only [List.length_cons]
  exact Nat.lt_succ_of_le (List.length_filter_le _ _)

/-! ## Common runtime model

Node objects live in an arena and are identified by `NodeId`.  The
mutable `next` pointers installed by chaining are a map
`NodeId → Option NodeId`.  Node names (`Node.name`, used as call-stack
return sites and script lookup keys) are strings.  The black-box
expression evaluator (`renpy.python.py_eval`) is a function parameter
returning `Except Unit _`; an `Except.error` models a raised evaluation
exception. -/

abbrev NodeId := Nat

abbrev NodeName := String

/-- Values produced by the black-box Python evaluator. -/
inductive PyValue where
  | pyNone
  | pyStr (s : String)
  | pyInt (i : Int)
  | pyBool (b : Bool)
  | pyObj (tag : Nat)
deriving DecidableEq, Repr

/-- Errors raised by embedded statement code. -/
inductive RenpyError where
  | attributeError
  | evalError
  | scriptError
  | indexError
  | exception (msg : String)
deriving DecidableEq, Repr

/-- The per-session execution context (`renpy.game.context()`): next
node to run, call-return stack (top at the head; entries are the node
names recorded as return sites), dynamic-variable scope stack (scope
contents abstracted), abnormal-transfer flag, init-phase flag, and the
current translation identifiers. -/
structure Context where
  next_node : Option NodeId
  return_stack : List NodeName
  dynamic_stack : List Nat
  abnormal : Bool
  init_phase : Bool
  translate_identifier : Option String
  alternate_translate_identifier : Option String
deriving DecidableEq, Repr

/-- The slice of `renpy.store` touched by the embedded statements. -/
structure Store where
  _return : PyValue
  _args : Option PyValue
  _kwargs : Option PyValue
deriving DecidableEq, Repr

/-- The script-wide name table: label → entry node
(`renpy.game.script.has_label` / `lookup`), and each node's `name`
attribute. -/
structure Program where
  labels : String → Option NodeId
  nodeName : NodeId → NodeName

/-! ## While (ast.py:2248-2310) and chaining -/

/-- An arena of `next` pointers: what `chain` installs. -/
abbrev NextArena := NodeId → Option NodeId

/-- Embedding of the base `Node.chain` (ast.py:429-438): sets the
node's `next` pointer. -/
def nodeChain (σ : NextArena) (a : NodeId) (nxt : Option NodeId) : NextArena :=
  fun i => if i = a then nxt else σ i

/-- Embedding of `chain_block` (ast.py:592-605): chains consecutive
nodes of a block together and the last node to `next`.  The block
members are base-class nodes, whose `chain` sets their `next`
pointer. -/
def chain_block (block : List NodeId) (nxt : Option NodeId) (σ : NextArena) : NextArena :=
  match block with
  | [] => σ
  | [a] => nodeChain σ a nxt
  | a :: b :: rest => chain_block (b :: rest) nxt (nodeChain σ a (some b))

/-- A `While` statement node: its own arena id, the loop condition
source text, and the body block. -/
structure WhileNode where
  id : NodeId
  condition : String
  block : List NodeId
deriving DecidableEq, Repr

/-- Embedding of `While.chain` (ast.py:2270-2273): `self.next = next`
then `chain_block(self.block, self)` — the block is chained back to the
While node itself. -/
def While.chain (w : WhileNode) (nxt : Option NodeId) (σ : NextArena) : NextArena :=
  chain_block w.block (some w.id) (nodeChain σ w.id nxt)

/-- Embedding of `While.execute` (ast.py:2282-2289): `next_node(self.next)`,
then if the condition evaluates truthy, `next_node(self.block[0])`.
`ev` is the black-box `renpy.python.py_eval` composed with Python
truthiness; `σ` supplies `self.next`.  An empty block makes
`self.block[0]` raise IndexError. -/
def While.execute (ev : String → Except Unit Bool) (w : WhileNode) (σ : NextArena)
    (ctx : Context) : Except RenpyError Context :=
  let ctx := { ctx with next_node := σ w.id }
  match ev w.condition with
  | .error _ => .error .evalError
  | .ok true =>
    match w.block with
    | [] => .error .indexError
    | b :: _ => .ok { ctx with next_node := some b }
  | .ok false => .ok ctx

/-! ## Call (ast.py:1792-1882), Jump (ast.py:2144-2233), Return (ast.py:1885-1934) -/

/-- Embedding of `probably_side_effect_free` (ast.py:582-589): true if
the expression contains no opening parenthesis (the check runs over the
character list so that it evaluates by kernel reduction). -/
def probably_side_effect_free (expr : String) : Bool :=
  !(expr.data.contains '(')

/-- The `label.startswith(".")` test of the call/jump target
resolution, over the character list. -/
def strStartsWithDot (s : String) : Bool :=
  match s.data with
  | [] => false
  | c :: _ => c = '.'

/-- A `Call` statement node.  `arguments` is the source of the
argument list, if any; `next` is the chained following node. -/
structure CallNode where
  label : String
  expression : Bool
  arguments : Option String
  global_label : String
  next : Option NodeId
deriving DecidableEq, Repr

/-- A `Jump` statement node (its `next` is chained to None and never
read by `execute` or `predict`). -/
structure JumpNode where
  target : String
  expression : Bool
  global_label : String
deriving DecidableEq, Repr

/-- Modelled from the spec: `Context.call` (execution context, not in
src) pushes the continuation return site onto the call stack and
transfers to the target label's entry node; an unresolvable target is a
fatal resolution error. -/
def Context.call (prog : Program) (ctx : Context) (label : String)
    (return_site : NodeName) : Except RenpyError (NodeId × Context) :=
  match prog.labels label with
  | none => .error .scriptError
  | some target =>
    .ok (target, { ctx with return_stack := return_site :: ctx.return_stack })

/-- Modelled from the spec: `Context.predict_call` (execution context,
not in src) resolves the target label's entry node speculatively; the
return-site push happens on a cloned snapshot that is discarded, so
only the resolved node is returned.  An unresolvable label raises. -/
def Context.predict_call (prog : Program) (label : String) (return_site : NodeName) :
    Except RenpyError NodeId :=
  match prog.labels label with
  | none => .error .scriptError
  | some target => let _ := return_site; .ok target

/-- Modelled from the spec: `Script.lookup` (script table, not in src)
returns the named node and raises a script error when the label does
not exist. -/
def Script.lookup (prog : Program) (label : String) : Except RenpyError NodeId :=
  match prog.labels label with
  | none => .error .scriptError
  | some target => .ok target

/-- The target-resolution prefix shared by `Call.execute` and
`Jump.execute`: evaluate the label when it is an expression, and
prepend the global label to a local (dot-prefixed) result
(ast.py:1823-1828, 2177-2182). -/
def resolveTargetExpr (ev : String → Except Unit String) (expression : Bool)
    (global_label : String) (label : String) : Except RenpyError String :=
  if expression then
    match ev label with
    | .error _ => .error .evalError
    | .ok s => .ok (if strStartsWithDot s then global_label ++ s else s)
  else
    .ok label

/-- Embedding of `Call.execute` (ast.py:1818-1840): resolve the label,
call through the context with `return_site=self.next.name` (an
AttributeError when `self.next` is None), set the next node, mark the
transition abnormal, then evaluate the arguments into
`_args`/`_kwargs` (None when absent). -/
def Call.execute (prog : Program) (ev : String → Except Unit String)
    (evalArgs : String → Except Unit (PyValue × PyValue)) (node : CallNode)
    (ctx : Context) (store : Store) : Except RenpyError (Context × Store) :=
  match resolveTargetExpr ev node.expression node.global_label node.label with
  | .error e => .error e
  | .ok label =>
    match node.next with
    | none => .error .attributeError
    | some nxt =>
      match Context.call prog ctx label (prog.nodeName nxt) with
      | .error e => .error e
      | .ok (target, ctx) =>
        let ctx := { ctx with next_node := some target, abnormal := true }
        match node.arguments with
        | none => .ok (ctx, { store with _args := none, _kwargs := none })
        | some a =>
          match evalArgs a with
          | .error _ => .error .evalError
          | .ok (args, kwargs) =>
            .ok (ctx, { store with _args := some args, _kwargs := some kwargs })

/-- The speculative target-resolution prefix shared by `Call.predict`
(ast.py:1845-1861) and `Jump.predict` (ast.py:2192-2208): for an
expression target, abort prediction (`.ok none`) when the expression is
probably not side-effect free, when its evaluation fails, or when the
resolved label is not in the script. -/
def predictTargetExpr (prog : Program) (ev : String → Except Unit String)
    (expression : Bool) (global_label : String) (label : String) :
    Except RenpyError (Option String) :=
  if expression then
    if !probably_side_effect_free label then .ok none
    else
      match ev label with
      | .error _ => .ok none
      | .ok s =>
        let s := if strStartsWithDot s then global_label ++ s else s
        if (prog.labels s).isSome then .ok (some s) else .ok none
  else
    .ok (some label)

/-- Embedding of `Call.predict` (ast.py:1842-1863): speculative label
resolution, then `[context().predict_call(label, self.next.name)]` —
reading `self.next.name` raises an AttributeError when `self.next` is
None. -/
def Call.predict (prog : Program) (ev : String → Except Unit String) (node : CallNode) :
    Except RenpyError (List NodeId) :=
  match predictTargetExpr prog ev node.expression node.global_label node.label with
  | .error e => .error e
  | .ok none => .ok []
  | .ok (some label) =>
    match node.next with
    | none => .error .attributeError
    | some nxt =>
      match Context.predict_call prog label (prog.nodeName nxt) with
      | .error e => .error e
      | .ok target => .ok [target]

/-- Embedding of `Jump.predict` (ast.py:2189-2210): speculative label
resolution, then `[renpy.game.script.lookup(label)]`. -/
def Jump.predict (prog : Program) (ev : String → Except Unit String) (node : JumpNode) :
    Except RenpyError (List NodeId) :=
  match predictTargetExpr prog ev node.expression node.global_label node.target with
  | .error e => .error e
  | .ok none => .ok []
  | .ok (some label) =>
    match Script.lookup prog label with
    | .error e => .error e
    | .ok target => .ok [target]

/-- A `Return` statement node. -/
structure ReturnNode where
  expression : Option String
deriving DecidableEq, Repr

/-- Modelled from the spec: `Context.lookup_return(pop=True)` (execution
context, not in src) pops the top call-stack entry and resolves the
recorded return-site name to its node (the popped continuation); a pop
from an empty stack outside the init phase is a fatal structural
error.  `Context.pop_dynamic` pops one level of dynamic-variable
scope. -/
def Context.lookup_return_pop (prog : Program) (ctx : Context) :
    Except RenpyError (Option NodeId × Context) :=
  match ctx.return_stack with
  | [] => .error .scriptError
  | site :: rest => .ok (prog.labels site, { ctx with return_stack := rest })

/-- The return-value evaluation at the top of `Return.execute`
(ast.py:1907-1910): the optional expression is evaluated (an evaluation
failure propagates), and None is used when the expression is absent. -/
def returnValue (ev : String → Except Unit PyValue) (node : ReturnNode) :
    Except RenpyError PyValue :=
  match node.expression with
  | some e => (ev e).mapError fun _ => RenpyError.evalError
  | none => .ok PyValue.pyNone

/-- Embedding of `Return.execute` (ast.py:1902-1923): evaluate the
optional return expression into `_return` (None when absent); during
the init phase with an empty return stack, raise when
`config.developer` is set and silently do nothing otherwise; in the
remaining cases transfer control to the popped continuation and pop one
dynamic-variable scope level. -/
def Return.execute (developer : Bool) (prog : Program)
    (ev : String → Except Unit PyValue) (node : ReturnNode) (ctx : Context)
    (store : Store) : Except RenpyError (Context × Store) :=
  match returnValue ev node with
  | .error e => .error e
  | .ok retval =>
    let store := { store with _return := retval }
    if ctx.init_phase ∧ ctx.return_stack = [] then
      if developer then .error (.exception "Unexpected return during the init phase.")
      else .ok (ctx, store)
    else
      match Context.lookup_return_pop prog ctx with
      | .error e => .error e
      | .ok (target, ctx) =>
        let ctx := { ctx with next_node := target,
                              dynamic_stack := ctx.dynamic_stack.tail }
        .ok (ctx, store)

/-! ## Translate (ast.py:3077-3191) and the seen-translates record
(ast.py:3267-3310, 3349-3383) -/

/-- The translation overlay table.  Per the data-model invariant,
exactly one canonical (language = none) subtree exists per identifier,
so `canonical` is total; `translated` maps (identifier, language) to
the language-specific subtree when one exists. -/
structure Translator where
  activeLanguage : Option String
  canonical : String → NodeId
  translated : String → String → Option NodeId

/-- Modelled from the spec: `translator.lookup_translate(identifier,
alternate)` (translation module, not in src) resolves the per-session
active language's subtree for the identifier (trying the alternate
identifier as a fallback key) if present, else the canonical block. -/
def Translator.lookup_translate (tr : Translator) (ident : String)
    (alt : Option String) : NodeId :=
  match tr.activeLanguage with
  | none => tr.canonical ident
  | some lang =>
    match tr.translated ident lang with
    | some node => node
    | none =>
      match alt with
      | none => tr.canonical ident
      | some a =>
        match tr.translated a lang with
        | some node => node
        | none => tr.canonical ident

/-- A `Translate` wrapper node. -/
structure TranslateNode where
  identifier : String
  alternate : Option String
  language : Option String
  block : List NodeId
  next : Option NodeId
deriving DecidableEq, Repr

/-- Embedding of `Translate.execute` (ast.py:3144-3156).  A node bound
to a specific language sets the next node and then raises; an unbound
node transfers to the translation-table lookup result and records the
current translation identifiers.  The post-state is returned together
with the raised error, if any, because the next node is set before the
raise. -/
def Translate.execute (tr : Translator) (node : TranslateNode) (ctx : Context) :
    Context × Option RenpyError :=
  match node.language with
  | some _ =>
    ({ ctx with next_node := node.next },
     some (.exception "Translation nodes cannot be run directly."))
  | none =>
    ({ ctx with
        next_node := some (tr.lookup_translate node.identifier node.alternate),
        translate_identifier := some node.identifier,
        alternate_translate_identifier := node.alternate },
     none)

/-- A key of the persistent `_seen_translates` set: either a raw
identifier string or its 64-bit hash (distinct Python types, so the two
kinds never collide). -/
abbrev SeenKey := String ⊕ Nat

/-- The persistent seen-translates set together with the global
`seen_translates_count` and `new_translates_count` counters. -/
structure SeenTranslates where
  seen : Finset SeenKey
  seen_translates_count : Nat
  new_translates_count : Nat
deriving DecidableEq

/-- Embedding of the seen-translate recording block that appears both
in the `finally` of `TranslateSay.execute` (ast.py:3294-3306) and in
`EndTranslate.execute` (ast.py:3368-3380): when neither the raw
identifier nor its hash is in the persistent set, add the hashed key
when `config.hash_seen` is set and the raw key otherwise, and increment
both global counters. -/
def markSeenTranslate (hash_seen : Bool) (hash64 : String → Nat) (tlid : String)
    (s : SeenTranslates) : SeenTranslates :=
  if Sum.inl tlid ∈ s.seen ∨ Sum.inr (hash64 tlid) ∈ s.seen then s
  else
    { seen := insert (if hash_seen then Sum.inr (hash64 tlid) else Sum.inl tlid) s.seen,
      seen_translates_count := s.seen_translates_count + 1,
      new_translates_count := s.new_translates_count + 1 }

/-- An `EndTranslate` node carries no payload beyond its `next` link. -/
structure EndTranslateNode where
  next : Option NodeId
deriving DecidableEq, Repr

/-- Embedding of `EndTranslate.execute` (ast.py:3360-3383): set the
next node; when a translation identifier is current, run the
seen-translate record for it; clear both translation identifiers. -/
def EndTranslate.execute (hash_seen : Bool) (hash64 : String → Nat)
    (node : EndTranslateNode) (ctx : Context) (s : SeenTranslates) :
    Context × SeenTranslates :=
  let ctx := { ctx with next_node := node.next }
  let s :=
    match ctx.translate_identifier with
    | none => s
    | some tlid => markSeenTranslate hash_seen hash64 tlid s
  ({ ctx with translate_identifier := none,
              alternate_translate_identifier := none }, s)

/-- A `TranslateSay` node: the Say payload plus translation fields
(only the fields read by the embedded `execute` are carried). -/
structure TranslateSayNode where
  id : NodeId
  identifier : String
  alternate : Option String
  language : Option String
  next : Option NodeId
deriving DecidableEq, Repr

/-- Embedding of `TranslateSay.execute` (ast.py:3267-3310): set the
next node and the translation identifiers; with no bound language,
jump to the looked-up translation when it is a different node;
otherwise run the say (a black-box interaction whose outcome is
`sayResult`) and, in a `finally` block, run the seen-translate record
for the identifier and clear the translation identifiers.  The raised
error of the say, if any, is re-raised after the `finally` block. -/
def TranslateSay.execute (hash_seen : Bool) (hash64 : String → Nat) (tr : Translator)
    (sayResult : Except RenpyError Unit) (node : TranslateSayNode) (ctx : Context)
    (s : SeenTranslates) : (Context × SeenTranslates) × Option RenpyError :=
  let ctx := { ctx with next_node := node.next,
                        translate_identifier := some node.identifier,
                        alternate_translate_identifier := node.alternate }
  let jump : Option NodeId :=
    match node.language with
    | none =>
      let target := tr.lookup_translate node.identifier node.alternate
      if target = node.id then none else some target
    | some _ => none
  match jump with
  | some target => (({ ctx with next_node := some target }, s), none)
  | none =>
    let s := markSeenTranslate hash_seen hash64 node.identifier s
    let ctx := { ctx with translate_identifier := none,
                          alternate_translate_identifier := none }
    ((ctx, s), match sayResult with | .ok _ => none | .error e => some e)

/-! ## Menu (ast.py:1937-2136) -/

/-- A menu item: caption label, guard condition source, and the
optional sub-block. -/
structure MenuItem where
  label : String
  condition : String
  block : Option (List NodeId)
deriving DecidableEq, Repr

/-- A `Menu` statement node.  `itemArguments i` is the argument source
of item `i`, if any. -/
structure MenuNode where
  items : List MenuItem
  arguments : Option String
  itemArguments : Nat → Option String
  next : Option NodeId

/-- An entry passed to the external chooser: filtered caption, guard
condition source, and the identity (the item index, or none for a
caption entry without a block). -/
structure MenuEntry where
  label : String
  condition : String
  value : Option Nat
deriving DecidableEq, Repr

/-- Embedding of the choice-building loop of `Menu.execute`
(ast.py:2024-2048), from item index `i` on: each caption is passed
through the say-menu text filter; an item without a block becomes a
narration line when `config.narrator_menu` is set and the caption is
non-empty, and a block-less chooser entry with identity none otherwise;
an item with a block becomes a chooser entry whose identity is its
declaration index. -/
def buildMenuEntries (narrator_menu : Bool) (filt : String → String) :
    List MenuItem → Nat → List MenuEntry × List String
  | [], _ => ([], [])
  | item :: rest, i =>
    let label := filt item.label
    let (entries, narration) := buildMenuEntries narrator_menu filt rest (i + 1)
    match item.block with
    | none =>
      if narrator_menu ∧ label ≠ "" then (entries, label :: narration)
      else (⟨label, item.condition, none⟩ :: entries, narration)
    | some _ => (⟨label, item.condition, some i⟩ :: entries, narration)

/-- Embedding of the per-item argument evaluation of the
`Menu.execute` loop (ast.py:2044-2048): items that contribute a
chooser entry (`has_item`) have their argument source evaluated; a
failure propagates out of `execute`. -/
def evalItemArgs (narrator_menu : Bool) (filt : String → String)
    (evalArgs : String → Except Unit (PyValue × PyValue))
    (itemArguments : Nat → Option String) : List MenuItem → Nat → Except Unit Unit
  | [], _ => .ok ()
  | item :: rest, i =>
    let label := filt item.label
    let has_item : Bool := item.block.isSome || !(narrator_menu && label != "")
    match (if has_item then
             match itemArguments i with
             | some a => (evalArgs a).map fun _ => ()
             | none => .ok ()
           else .ok ()) with
    | .error e => .error e
    | .ok () => evalItemArgs narrator_menu filt evalArgs itemArguments rest (i + 1)

/-- Embedding of `Menu.execute` (ast.py:2000-2060): set the next node,
evaluate the menu arguments, build the chooser entries and the
narration lines (the narration is said through the external narrator),
evaluate per-item arguments, hand the entries to the external chooser,
and set the next node to the chosen item's first block node, or to
`self.next` when the chooser returns none.  A chosen identity without a
block or out of range is the `self.items[choice][2][0]` subscript
failure. -/
def Menu.execute (narrator_menu : Bool) (filt : String → String)
    (evalArgs : String → Except Unit (PyValue × PyValue))
    (chooser : List MenuEntry → Option Nat) (m : MenuNode) (ctx : Context) :
    Except RenpyError Context :=
  let ctx := { ctx with next_node := m.next }
  match (match m.arguments with
         | none => (.ok () : Except Unit Unit)
         | some a => (evalArgs a).map fun _ => ()) with
  | .error _ => .error .evalError
  | .ok () =>
    let (entries, _narration) := buildMenuEntries narrator_menu filt m.items 0
    match evalItemArgs narrator_menu filt evalArgs m.itemArguments m.items 0 with
    | .error _ => .error .evalError
    | .ok () =>
      match chooser entries with
      | some choice =>
        match m.items.get? choice with
        | some item =>
          match item.block with
          | some (b :: _) => .ok { ctx with next_node := some b }
          | some [] => .error .indexError
          | none => .error .attributeError
        | none => .error .indexError
      | none => .ok { ctx with next_node := m.next }

/-! ## Say (ast.py:896-1101): construction, `diff_info`, `scry` -/

/-- A `Say` statement node, with the fields set by `Say.__init__`
(ast.py:914-957).  `arguments` abstracts the `ArgumentInfo` to its
source text. -/
structure SayNode where
  who : Option String
  who_fast : Bool
  what : String
  with_ : Option String
  interact : Bool
  attributes : Option (List String)
  arguments : Option String
  temporary_attributes : Option (List String)
  identifier : Option String
  explicit_identifier : Bool
  next : Option NodeId
deriving DecidableEq, Repr

/-- Embedding of the `who` processing in `Say.__init__`
(ast.py:929-940): a speaker that matches the lexer word regexp (the
black-box `isWord`, since the lexer is not in src) is stored stripped
with `who_fast` set; otherwise it is stored verbatim. -/
def sayWho (isWord : String → Bool) (who : Option String) : Option String × Bool :=
  match who with
  | none => (none, false)
  | some w => if isWord w then (some w.trim, true) else (some w, false)

/-- Embedding of `Say.__init__` (ast.py:914-957). -/
def Say.mkNode (isWord : String → Bool) (who : Option String) (what : String)
    (with_ : Option String) (interact : Bool) (attributes : Option (List String))
    (arguments : Option String) (temporary_attributes : Option (List String))
    (identifier : Option String) : SayNode :=
  let (w, fast) := sayWho isWord who
  { who := w, who_fast := fast, what := what, with_ := with_, interact := interact,
    attributes := attributes, arguments := arguments,
    temporary_attributes := temporary_attributes, identifier := identifier,
    explicit_identifier := identifier.isSome, next := none }

/-- The hashable tuples returned by the `diff_info` methods.  The
leading class object of the Python tuples becomes the constructor
tag; the base `Node.diff_info` tuple `(id(self),)` becomes
`objectId` over the object identity. -/
inductive DiffInfo where
  | objectId (objId : Nat)
  | say (who : Option String) (what : String)
  | ret
  | jump (target : String) (expression : Bool)
deriving DecidableEq, Repr

/-- Embedding of `Say.diff_info` (ast.py:910-912): the tuple
`(Say, self.who, self.what)`. -/
def Say.diffInfo (n : SayNode) : DiffInfo :=
  .say n.who n.what

/-- Embedding of the base `Node.diff_info` (ast.py:398-405): the tuple
`(id(self),)`, where `objId` is the CPython object identity of the
node — distinct for distinct live objects. -/
def Node.diffInfoBase (objId : Nat) : DiffInfo :=
  .objectId objId

/-! ## eval_who (ast.py:627-649) and scry (ast.py:478-486, 256-263,
1083-1101) -/

/-- The variable stores consulted by `eval_who`: the optional
`store.character` store and the default store. -/
structure Stores where
  hasCharacterStore : Bool
  characterStore : String → Option PyValue
  defaultStore : String → Option PyValue

/-- Embedding of `eval_who` (ast.py:627-649): a None speaker resolves
to None; otherwise the `store.character` store (when present) and then
the default store are consulted; when both miss, the speaker source is
evaluated, and an evaluation failure raises the "Sayer is not defined"
exception.  The `fast` parameter is accepted and unused, as in the
source. -/
def eval_who (st : Stores) (pyEval : String → Except Unit PyValue)
    (who : Option String) (fast : Bool) : Except RenpyError (Option PyValue) :=
  let _ := fast
  match who with
  | none => .ok none
  | some w =>
    let rv := if st.hasCharacterStore then st.characterStore w else none
    let rv := match rv with
              | some v => some v
              | none => st.defaultStore w
    match rv with
    | some v => .ok (some v)
    | none =>
      match pyEval w with
      | .ok v => .ok (some v)
      | .error _ => .error (.exception "Sayer is not defined.")

/-- The text-extension field of a Scry record. -/
inductive ExtendText where
  | unknown
  | doesNotExtend
  | text (s : String)
deriving DecidableEq, Repr

/-- The `Scry` record (ast.py:226-263): a best-effort forward-looking
summary whose fields default to unknown. -/
structure ScryData where
  nextNode : Option NodeId
  interacts : Bool
  say : Bool
  menu_with_caption : Bool
  who : Option PyValue
  extend_text : ExtendText
  multiple : Option PyValue
deriving DecidableEq, Repr

/-- A fresh `Scry()` with all fields at their defaults. -/
def ScryData.init : ScryData :=
  { nextNode := none, interacts := false, say := false, menu_with_caption := false,
    who := none, extend_text := .unknown, multiple := none }

/-- Embedding of the base `Node.scry` (ast.py:478-486): a fresh record
with `_next` set to the node's next.  It cannot raise. -/
def Node.scryBase (next : Option NodeId) : ScryData :=
  { ScryData.init with nextNode := next }

/-- Embedding of `Say.scry` (ast.py:1083-1101): start from the base
record, resolve the speaker with `eval_who` (whose failure propagates),
mark it a say, compute the `multiple` field with any internal error
swallowed (`multipleOf` is the black-box
`self.arguments.evaluate()[1]["multiple"]`, none when that raises), and
either consult the external `renpy.exports.scry_say` (a total
collaborator) or mark the statement as non-interacting. -/
def Say.scry (st : Stores) (pyEval : String → Except Unit PyValue)
    (multipleOf : Option String → Option PyValue)
    (scrySayExt : Option PyValue → String → ScryData → ScryData) (n : SayNode) :
    Except RenpyError ScryData :=
  let rv := Node.scryBase n.next
  match eval_who st pyEval n.who n.who_fast with
  | .error e => .error e
  | .ok who =>
    let rv := { rv with who := who, say := true }
    let rv := match multipleOf n.arguments with
              | some m => { rv with multiple := some m }
              | none => rv
    if n.interact then .ok (scrySayExt who n.what rv)
    else .ok { rv with interacts := false, extend_text := .doesNotExtend }

/-- Embedding of `Scry.next` (ast.py:256-263): scry the next node,
returning none when there is no next node and swallowing any exception
the chained `scry` raises. -/
def ScryData.nextScry (s : ScryData) (scryOf : NodeId → Except RenpyError ScryData) :
    Option ScryData :=
  match s.nextNode with
  | none => none
  | some n =>
    match scryOf n with
    | .ok r => some r
    | .error _ => none

/-! ## Theorems -/

/-- `chain_block` leaves the `next` pointer of any node outside the
block unchanged. -/
theorem chain_block_preserve (block : List NodeId) (nxt : Option NodeId)
    (σ : NextArena) (i : NodeId) (hi : i ∉ block) :
    chain_block block nxt σ i = σ i := by
  induction block generalizing σ with
  | nil => rfl
  | cons a rest ih =>
    match rest with
    | [] =>
      simp only [chain_block, nodeChain]
      rw [if_neg]
      simp only [List.mem_singleton] at hi
      exact hi
    | b :: rest2 =>
      simp only [chain_block]
      rw [ih _ (by intro hmem; exact hi (List.mem_cons_of_mem a hmem)), nodeChain,
        if_neg (by intro hEq; exact hi (hEq ▸ List.mem_cons_self a _))]

/-- `chain_block` chains the last node of a duplicate-free block to the
given following node. -/
theorem chain_block_last (block : List NodeId) (nxt : Option NodeId) (σ : NextArena)
    (lst : NodeId) (hlast : block.getLast? = some lst) (hnd : block.Nodup) :
    chain_block block nxt σ lst = nxt := by
  induction block generalizing σ with
  | nil => simp at hlast
  | cons a rest ih =>
    match rest with
    | [] =>
      simp only [List.getLast?_singleton, Option.some.injEq] at hlast
      simp [chain_block, nodeChain, hlast]
    | b :: rest2 =>
      have hlast2 : (b :: rest2).getLast? = some lst := by
        rw [List.getLast?_cons_cons] at hlast
        exact hlast
      have hnd2 : (b :: rest2).Nodup := (List.nodup_cons.mp hnd).2
      simp only [chain_block]
      exact ih _ hlast2 hnd2

/-- Claim C2: after `While.chain(following)` runs on a While node with
a non-empty, duplicate-free block of base statement nodes, the node's
own `next` is the following node and the last node of its block is
chained back to the While node itself; `While.execute` sets the
context's next node to the first block node when the condition
evaluates true and to the node's `next` (the following node) when it
evaluates false, so a condition false on the first check never enters
the body. -/
theorem c2_while_chain_and_execute (w : WhileNode) (σ : NextArena)
    (following : Option NodeId) (ev : String → Except Unit Bool) (ctx : Context)
    (b : NodeId) (bs : List NodeId) (hblock : w.block = b :: bs)
    (hnodup : (w.id :: w.block).Nodup) :
    (While.chain w following σ) w.id = following
    ∧ (∀ lst, w.block.getLast? = some lst →
        (While.chain w following σ) lst = some w.id)
    ∧ (ev w.condition = .ok true →
        While.execute ev w (While.chain w following σ) ctx =
          .ok { ctx with next_node := some b })
    ∧ (ev w.condition = .ok false →
        While.execute ev w (While.chain w following σ) ctx =
          .ok { ctx with next_node := following }) := by
  have hid : w.id ∉ w.block := (List.nodup_cons.mp hnodup).1
  have hchain : (While.chain w following σ) w.id = following := by
    unfold While.chain
    rw [chain_block_preserve _ _ _ _ hid]
    simp [nodeChain]
  refine ⟨hchain, ?_, ?_, ?_⟩
  · intro lst hlst
    unfold While.chain
    exact chain_block_last _ _ _ _ hlst (List.nodup_cons.mp hnodup).2
  · intro hev
    unfold While.execute
    rw [hchain, hev, hblock]
  · intro hev
    unfold While.execute
    rw [hchain, hev]

/-- Witness for C2 at a concrete While node with a two-statement body
and a true condition. -/
theorem c2_while_chain_and_execute_witness :
    (While.chain ⟨0, "flag", [1, 2]⟩ (some 5) (fun _ => none)) 0 = some 5
    ∧ (∀ lst, (([1, 2] : List NodeId)).getLast? = some lst →
        (While.chain ⟨0, "flag", [1, 2]⟩ (some 5) (fun _ => none)) lst = some 0)
    ∧ ((fun (_ : String) => (.ok true : Except Unit Bool)) "flag" = .ok true →
        While.execute (fun _ => .ok true) ⟨0, "flag", [1, 2]⟩
          (While.chain ⟨0, "flag", [1, 2]⟩ (some 5) (fun _ => none))
          ⟨none, [], [], false, false, none, none⟩ =
          .ok { (⟨none, [], [], false, false, none, none⟩ : Context) with
                  next_node := some 1 })
    ∧ ((fun (_ : String) => (.ok true : Except Unit Bool)) "flag" = .ok false →
        While.execute (fun _ => .ok true) ⟨0, "flag", [1, 2]⟩
          (While.chain ⟨0, "flag", [1, 2]⟩ (some 5) (fun _ => none))
          ⟨none, [], [], false, false, none, none⟩ =
          .ok { (⟨none, [], [], false, false, none, none⟩ : Context) with
                  next_node := some 5 }) :=
  c2_while_chain_and_execute ⟨0, "flag", [1, 2]⟩ (fun _ => none) (some 5)
    (fun _ => .ok true) ⟨none, [], [], false, false, none, none⟩ 1 [2]
    (by rfl) (by decide)

/-- Claim C3: `Return.execute` first evaluates the optional return
expression into the `_return` slot (None when absent, a failure
propagating before anything else); with the context in the init phase
and an empty return stack it raises exactly when developer mode is
enabled and otherwise is a silent no-op that pops nothing and leaves
the next node unchanged; with a non-empty return stack it transfers
control to the popped continuation and pops one level of
dynamic-variable scope; an empty stack outside the init phase is the
fatal structural error. -/
theorem c3_return_execute (developer : Bool) (prog : Program)
    (ev : String → Except Unit PyValue) (node : ReturnNode) (ctx : Context)
    (store : Store) :
    (∀ e, returnValue ev node = .error e →
      Return.execute developer prog ev node ctx store = .error e)
    ∧ (∀ v, returnValue ev node = .ok v → ctx.init_phase = true →
        ctx.return_stack = [] → developer = true →
        Return.execute developer prog ev node ctx store =
          .error (.exception "Unexpected return during the init phase."))
    ∧ (∀ v, returnValue ev node = .ok v → ctx.init_phase = true →
        ctx.return_stack = [] → developer = false →
        Return.execute developer prog ev node ctx store =
          .ok (ctx, { store with _return := v }))
    ∧ (∀ v site rest, returnValue ev node = .ok v → ctx.return_stack = site :: rest →
        Return.execute developer prog ev node ctx store =
          .ok ({ ctx with next_node := prog.labels site, return_stack := rest,
                          dynamic_stack := ctx.dynamic_stack.tail },
               { store with _return := v }))
    ∧ (∀ v, returnValue ev node = .ok v → ctx.init_phase = false →
        ctx.return_stack = [] →
        Return.execute developer prog ev node ctx store = .error .scriptError) := by
  refine ⟨?_, ?_, ?_, ?_, ?_⟩
  · intro e he
    unfold Return.execute
    rw [he]
  · intro v hv hinit hstack hdev
    unfold Return.execute
    rw [hv]
    simp [hinit, hstack, hdev]
  · intro v hv hinit hstack hdev
    unfold Return.execute
    rw [hv]
    simp [hinit, hstack, hdev]
  · intro v site rest hv hstack
    unfold Return.execute
    rw [hv]
    simp [hstack, Context.lookup_return_pop]
  · intro v hv hinit hstack
    unfold Return.execute
    rw [hv]
    simp [hinit, hstack, Context.lookup_return_pop]

/-- Witness for C3: a concrete Return with no expression, taken in a
context with one call-stack entry (the normal transfer case) and in an
init-phase context with an empty stack (the silent no-op case). -/
theorem c3_return_execute_witness :
    Return.execute false ⟨fun l => if l = "after_call" then some 4 else none, fun _ => "n"⟩
      (fun _ => .ok .pyNone) ⟨none⟩
      ⟨none, ["after_call"], [7], false, false, none, none⟩
      ⟨.pyInt 3, none, none⟩ =
      .ok (⟨some 4, [], [], false, false, none, none⟩, ⟨.pyNone, none, none⟩)
    ∧ Return.execute false ⟨fun _ => none, fun _ => "n"⟩ (fun _ => .ok .pyNone) ⟨none⟩
        ⟨some 9, [], [], false, true, none, none⟩ ⟨.pyInt 3, none, none⟩ =
        .ok (⟨some 9, [], [], false, true, none, none⟩, ⟨.pyNone, none, none⟩) := by
  constructor
  · exact (c3_return_execute false
      ⟨fun l => if l = "after_call" then some 4 else none, fun _ => "n"⟩
      (fun _ => .ok .pyNone) ⟨none⟩ ⟨none, ["after_call"], [7], false, false, none, none⟩
      ⟨.pyInt 3, none, none⟩).2.2.2.1 .pyNone "after_call" [] (by rfl) (by rfl)
  · exact (c3_return_execute false ⟨fun _ => none, fun _ => "n"⟩ (fun _ => .ok .pyNone)
      ⟨none⟩ ⟨some 9, [], [], false, true, none, none⟩
      ⟨.pyInt 3, none, none⟩).2.2.1 .pyNone (by rfl) (by rfl) (by rfl) (by rfl)

/-- Claim C10: `Call.execute` and `Call.predict` dereference
`self.next.name` to form the pushed return site, so a Call node whose
`next` is None makes `execute` fail (whatever the target form) and
makes `predict` of a static target fail with the attribute error
instead of transferring control; when `next` is a node, the return site
recorded on the call stack is exactly that node's name, for static and
for successfully evaluated expression targets alike. -/
theorem c10_call_next_precondition (prog : Program) (ev : String → Except Unit String)
    (evalArgs : String → Except Unit (PyValue × PyValue)) (node : CallNode)
    (ctx : Context) (store : Store) :
    (node.next = none →
      ∃ e, Call.execute prog ev evalArgs node ctx store = .error e)
    ∧ (node.next = none → node.expression = false →
        Call.execute prog ev evalArgs node ctx store = .error .attributeError
        ∧ Call.predict prog ev node = .error .attributeError)
    ∧ (∀ nxt label target, node.next = some nxt →
        resolveTargetExpr ev node.expression node.global_label node.label = .ok label →
        prog.labels label = some target → node.arguments = none →
        Call.execute prog ev evalArgs node ctx store =
          .ok ({ ctx with next_node := some target,
                          return_stack := prog.nodeName nxt :: ctx.return_stack,
                          abnormal := true },
               { store with _args := none, _kwargs := none }))
    ∧ (∀ nxt label target, node.next = some nxt →
        predictTargetExpr prog ev node.expression node.global_label node.label =
          .ok (some label) →
        prog.labels label = some target →
        Call.predict prog ev node = .ok [target]) := by
  refine ⟨?_, ?_, ?_, ?_⟩
  · intro hnext
    unfold Call.execute
    cases hres : resolveTargetExpr ev node.expression node.global_label node.label with
    | error e => exact ⟨e, rfl⟩
    | ok label => rw [hnext]; exact ⟨.attributeError, rfl⟩
  · intro hnext hexpr
    constructor
    · unfold Call.execute
      rw [show resolveTargetExpr ev node.expression node.global_label node.label =
            .ok node.label by unfold resolveTargetExpr; rw [hexpr]; rfl, hnext]
    · unfold Call.predict
      rw [show predictTargetExpr prog ev node.expression node.global_label node.label =
            .ok (some node.label) by unfold predictTargetExpr; rw [hexpr]; rfl, hnext]
  · intro nxt label target hnext hres hlbl hargs
    unfold Call.execute Context.call
    rw [hres]
    simp only [hnext, hlbl, hargs]
  · intro nxt label target hnext hres hlbl
    unfold Call.predict Context.predict_call
    rw [hres]
    simp only [hnext, hlbl]

/-- Witness for C10 at two concrete static Call nodes: one whose
`next` is None (both operations fail) and one chained to node 8 (the
return site pushed is node 8's name and control transfers to the
label's entry node). -/
theorem c10_call_next_precondition_witness :
    (Call.execute ⟨fun l => if l = "sub" then some 3 else none, fun _ => "site"⟩
        (fun _ => .error ()) (fun _ => .error ()) ⟨"sub", false, none, "", none⟩
        ⟨none, [], [], false, false, none, none⟩ ⟨.pyNone, none, none⟩ =
          .error .attributeError
      ∧ Call.predict ⟨fun l => if l = "sub" then some 3 else none, fun _ => "site"⟩
          (fun _ => .error ()) ⟨"sub", false, none, "", none⟩ = .error .attributeError)
    ∧ Call.execute ⟨fun l => if l = "sub" then some 3 else none, fun _ => "site"⟩
        (fun _ => .error ()) (fun _ => .error ()) ⟨"sub", false, none, "", some 8⟩
        ⟨none, [], [], false, false, none, none⟩ ⟨.pyNone, none, none⟩ =
        .ok ({ (⟨none, [], [], false, false, none, none⟩ : Context) with
                 next_node := some 3, return_stack := ["site"], abnormal := true },
             { (⟨.pyNone, none, none⟩ : Store) with _args := none, _kwargs := none }) :=
  ⟨(c10_call_next_precondition ⟨fun l => if l = "sub" then some 3 else none,
      fun _ => "site"⟩ (fun _ => .error ()) (fun _ => .error ())
      ⟨"sub", false, none, "", none⟩ ⟨none, [], [], false, false, none, none⟩
      ⟨.pyNone, none, none⟩).2.1 rfl rfl,
   (c10_call_next_precondition ⟨fun l => if l = "sub" then some 3 else none,
      fun _ => "site"⟩ (fun _ => .error ()) (fun _ => .error ())
      ⟨"sub", false, none, "", some 8⟩ ⟨none, [], [], false, false, none, none⟩
      ⟨.pyNone, none, none⟩).2.2.1 8 "sub" 3 rfl rfl rfl rfl⟩

/-- Counterexample for C4: at this concrete static Call node, whose
target label exists in the script but whose `next` link is None,
`Call.predict` raises (the `self.next.name` attribute access) rather
than returning a prediction, so predict is not exception-free. -/
theorem c4_predict_counterexample :
    Call.predict ⟨fun l => if l = "foo" then some 0 else none, fun _ => "site"⟩
      (fun _ => .error ()) ⟨"foo", false, none, "", none⟩ = .error .attributeError := by
  rfl

/-- Claim C4 (amended): for every Jump node, and every Call node whose
`next` link is not None, `predict` does not raise provided a static
target exists in the script: an expression target yields the empty
list when the expression is probably not side-effect free, when its
evaluation fails, or when the resolved (dot-qualified) label is not in
the script, and yields the one-element list of the resolved target node
otherwise; a static target in the script yields that one-element
list. -/
theorem c4_predict_resolution (prog : Program) (ev : String → Except Unit String)
    (c : CallNode) (j : JumpNode) :
    (c.expression = true → probably_side_effect_free c.label = false →
      Call.predict prog ev c = .ok [])
    ∧ (c.expression = true → ev c.label = .error () → Call.predict prog ev c = .ok [])
    ∧ (∀ s, c.expression = true → ev c.label = .ok s →
        prog.labels (if strStartsWithDot s then c.global_label ++ s else s) = none →
        Call.predict prog ev c = .ok [])
    ∧ (∀ s target nxt, c.expression = true → ev c.label = .ok s →
        prog.labels (if strStartsWithDot s then c.global_label ++ s else s) = some target →
        probably_side_effect_free c.label = true → c.next = some nxt →
        Call.predict prog ev c = .ok [target])
    ∧ (∀ target nxt, c.expression = false → prog.labels c.label = some target →
        c.next = some nxt → Call.predict prog ev c = .ok [target])
    ∧ (j.expression = true → probably_side_effect_free j.target = false →
        Jump.predict prog ev j = .ok [])
    ∧ (j.expression = true → ev j.target = .error () → Jump.predict prog ev j = .ok [])
    ∧ (∀ s, j.expression = true → ev j.target = .ok s →
        prog.labels (if strStartsWithDot s then j.global_label ++ s else s) = none →
        Jump.predict prog ev j = .ok [])
    ∧ (∀ s target, j.expression = true → ev j.target = .ok s →
        prog.labels (if strStartsWithDot s then j.global_label ++ s else s) = some target →
        probably_side_effect_free j.target = true →
        Jump.predict prog ev j = .ok [target])
    ∧ (∀ target, j.expression = false → prog.labels j.target = some target →
        Jump.predict prog ev j = .ok [target]) := by
  refine ⟨?_, ?_, ?_, ?_, ?_, ?_, ?_, ?_, ?_, ?_⟩
  · intro hexpr hsef
    unfold Call.predict predictTargetExpr
    rw [hexpr, hsef]
    rfl
  · intro hexpr hev
    unfold Call.predict predictTargetExpr
    rw [hexpr]
    by_cases hsef : probably_side_effect_free c.label
    · simp [hsef, hev]
    · simp [Bool.of_not_eq_true hsef]
  · intro s hexpr hev hlbl
    unfold Call.predict predictTargetExpr
    rw [hexpr]
    by_cases hsef : probably_side_effect_free c.label
    · simp [hsef, hev, hlbl]
    · simp [Bool.of_not_eq_true hsef]
  · intro s target nxt hexpr hev hlbl hsef hnext
    unfold Call.predict predictTargetExpr
    rw [hexpr]
    simp only [hsef, Bool.not_true, Bool.false_eq_true, if_false, hev, hlbl,
      Option.isSome_some, if_true]
    rw [hnext]
    unfold Context.predict_call
    rw [hlbl]
  · intro target nxt hexpr hlbl hnext
    unfold Call.predict predictTargetExpr
    rw [hexpr]
    simp only [Bool.false_eq_true, if_false]
    rw [hnext]
    unfold Context.predict_call
    rw [hlbl]
  · intro hexpr hsef
    unfold Jump.predict predictTargetExpr
    rw [hexpr, hsef]
    rfl
  · intro hexpr hev
    unfold Jump.predict predictTargetExpr
    rw [hexpr]
    by_cases hsef : probably_side_effect_free j.target
    · simp [hsef, hev]
    · simp [Bool.of_not_eq_true hsef]
  · intro s hexpr hev hlbl
    unfold Jump.predict predictTargetExpr
    rw [hexpr]
    by_cases hsef : probably_side_effect_free j.target
    · simp [hsef, hev, hlbl]
    · simp [Bool.of_not_eq_true hsef]
  · intro s target hexpr hev hlbl hsef
    unfold Jump.predict predictTargetExpr
    rw [hexpr]
    simp only [hsef, Bool.not_true, Bool.false_eq_true, if_false, hev, hlbl,
      Option.isSome_some, if_true]
    unfold Script.lookup
    rw [hlbl]
  · intro target hexpr hlbl
    unfold Jump.predict predictTargetExpr
    rw [hexpr]
    simp only [Bool.false_eq_true, if_false]
    unfold Script.lookup
    rw [hlbl]

/-- Witness for C4 at a concrete expression Call (whose evaluation
resolves to an existing label) and a concrete static Jump. -/
theorem c4_predict_resolution_witness :
    Call.predict ⟨fun l => if l = "bar" then some 3 else none, fun _ => "site"⟩
      (fun _ => .ok "bar") ⟨"x", true, none, "", some 7⟩ = .ok [3]
    ∧ Jump.predict ⟨fun l => if l = "bar" then some 3 else none, fun _ => "site"⟩
        (fun _ => .ok "bar") ⟨"bar", false, ""⟩ = .ok [3] :=
  ⟨(c4_predict_resolution ⟨fun l => if l = "bar" then some 3 else none,
      fun _ => "site"⟩ (fun _ => .ok "bar") ⟨"x", true, none, "", some 7⟩
      ⟨"bar", false, ""⟩).2.2.2.1 "bar" 3 7 rfl rfl (by rfl) rfl rfl,
   (c4_predict_resolution ⟨fun l => if l = "bar" then some 3 else none,
      fun _ => "site"⟩ (fun _ => .ok "bar") ⟨"x", true, none, "", some 7⟩
      ⟨"bar", false, ""⟩).2.2.2.2.2.2.2.2.2 3 rfl (by rfl)⟩

/-- Claim C5: executing a `Translate` node bound to a specific language
raises the usage error but first sets the context's next node to the
node's `next`; executing an unbound one does not raise, sets the next
node to the translation-table lookup for (identifier, alternate) — the
active language's subtree when one exists, else the canonical block —
and records the identifier as the context's current translation
identifier. -/
theorem c5_translate_execute (tr : Translator) (node : TranslateNode) (ctx : Context) :
    (∀ lang, node.language = some lang →
      (Translate.execute tr node ctx).2 =
          some (.exception "Translation nodes cannot be run directly.")
        ∧ (Translate.execute tr node ctx).1.next_node = node.next)
    ∧ (node.language = none →
        (Translate.execute tr node ctx).2 = none
        ∧ (Translate.execute tr node ctx).1.next_node =
            some (tr.lookup_translate node.identifier node.alternate)
        ∧ (Translate.execute tr node ctx).1.translate_identifier = some node.identifier
        ∧ (Translate.execute tr node ctx).1.alternate_translate_identifier =
            node.alternate)
    ∧ (tr.activeLanguage = none →
        tr.lookup_translate node.identifier node.alternate =
          tr.canonical node.identifier)
    ∧ (∀ lang sub, tr.activeLanguage = some lang →
        tr.translated node.identifier lang = some sub →
        tr.lookup_translate node.identifier node.alternate = sub)
    ∧ (∀ lang, tr.activeLanguage = some lang →
        tr.translated node.identifier lang = none → node.alternate = none →
        tr.lookup_translate node.identifier node.alternate =
          tr.canonical node.identifier) := by
  refine ⟨?_, ?_, ?_, ?_, ?_⟩
  · intro lang hlang
    unfold Translate.execute
    rw [hlang]
    exact ⟨rfl, rfl⟩
  · intro hlang
    unfold Translate.execute
    rw [hlang]
    exact ⟨rfl, rfl, rfl, rfl⟩
  · intro hact
    unfold Translator.lookup_translate
    rw [hact]
  · intro lang sub hact htr
    simp only [Translator.lookup_translate, hact, htr]
  · intro lang hact htr halt
    simp only [Translator.lookup_translate, hact, htr, halt]

/-- Witness for C5: a concrete language-bound Translate raises with its
next node set, and a concrete unbound Translate under an active
language with a translation transfers into the translated subtree. -/
theorem c5_translate_execute_witness :
    ((Translate.execute ⟨some "fr", fun _ => 1, fun i l =>
          if i = "id1" ∧ l = "fr" then some 2 else none⟩
        ⟨"id1", none, some "fr", [3], some 4⟩
        ⟨none, [], [], false, false, none, none⟩).2 =
        some (.exception "Translation nodes cannot be run directly.")
      ∧ (Translate.execute ⟨some "fr", fun _ => 1, fun i l =>
            if i = "id1" ∧ l = "fr" then some 2 else none⟩
          ⟨"id1", none, some "fr", [3], some 4⟩
          ⟨none, [], [], false, false, none, none⟩).1.next_node = some 4)
    ∧ ((Translate.execute ⟨some "fr", fun _ => 1, fun i l =>
            if i = "id1" ∧ l = "fr" then some 2 else none⟩
          ⟨"id1", none, none, [3], some 4⟩
          ⟨none, [], [], false, false, none, none⟩).1.next_node = some 2
        ∧ (Translate.execute ⟨some "fr", fun _ => 1, fun i l =>
              if i = "id1" ∧ l = "fr" then some 2 else none⟩
            ⟨"id1", none, none, [3], some 4⟩
            ⟨none, [], [], false, false, none, none⟩).1.translate_identifier =
            some "id1") := by
  refine ⟨(c5_translate_execute ⟨some "fr", fun _ => 1, fun i l =>
      if i = "id1" ∧ l = "fr" then some 2 else none⟩
      ⟨"id1", none, some "fr", [3], some 4⟩
      ⟨none, [], [], false, false, none, none⟩).1 "fr" rfl, ?_, ?_⟩
  · have h2 := (c5_translate_execute ⟨some "fr", fun _ => 1, fun i l =>
        if i = "id1" ∧ l = "fr" then some 2 else none⟩
        ⟨"id1", none, none, [3], some 4⟩
        ⟨none, [], [], false, false, none, none⟩).2.1 rfl
    have h4 := (c5_translate_execute ⟨some "fr", fun _ => 1, fun i l =>
        if i = "id1" ∧ l = "fr" then some 2 else none⟩
        ⟨"id1", none, none, [3], some 4⟩
        ⟨none, [], [], false, false, none, none⟩).2.2.2.1 "fr" 2 rfl (by decide)
    rw [h2.2.1, h4]
  · exact ((c5_translate_execute ⟨some "fr", fun _ => 1, fun i l =>
        if i = "id1" ∧ l = "fr" then some 2 else none⟩
        ⟨"id1", none, none, [3], some 4⟩
        ⟨none, [], [], false, false, none, none⟩).2.1 rfl).2.2.1

/-- Claim C6: the first seen-translate recording for an identifier adds
exactly one key to the persistent set — the raw identifier, or its
hashed form under the hash-seen policy — and increments both global
counters by one; a recording for an identifier whose raw or hashed key
is already present changes nothing, so a second recording after the
first is the identity; the recording runs on `EndTranslate.execute`
for the context's current identifier and on the say path of
`TranslateSay.execute` for the node's identifier. -/
theorem c6_seen_translates (hash_seen : Bool) (hash64 : String → Nat) (tlid : String)
    (s : SeenTranslates) :
    (Sum.inl tlid ∉ s.seen → Sum.inr (hash64 tlid) ∉ s.seen →
      markSeenTranslate hash_seen hash64 tlid s =
        { seen := insert (if hash_seen then Sum.inr (hash64 tlid) else Sum.inl tlid)
            s.seen,
          seen_translates_count := s.seen_translates_count + 1,
          new_translates_count := s.new_translates_count + 1 }
      ∧ (markSeenTranslate hash_seen hash64 tlid s).seen.card = s.seen.card + 1)
    ∧ (Sum.inl tlid ∈ s.seen ∨ Sum.inr (hash64 tlid) ∈ s.seen →
        markSeenTranslate hash_seen hash64 tlid s = s)
    ∧ (∀ hs2, markSeenTranslate hs2 hash64 tlid (markSeenTranslate hash_seen hash64 tlid s)
        = markSeenTranslate hash_seen hash64 tlid s)
    ∧ (∀ node ctx, ctx.translate_identifier = some tlid →
        (EndTranslate.execute hash_seen hash64 node ctx s).2 =
            markSeenTranslate hash_seen hash64 tlid s
          ∧ (EndTranslate.execute hash_seen hash64 node ctx s).1.translate_identifier =
            none)
    ∧ (∀ tr sayResult node ctx, node.identifier = tlid →
        (node.language ≠ none ∨
          Translator.lookup_translate tr node.identifier node.alternate = node.id) →
        (TranslateSay.execute hash_seen hash64 tr sayResult node ctx s).1.2 =
          markSeenTranslate hash_seen hash64 tlid s) := by
  refine ⟨?_, ?_, ?_, ?_, ?_⟩
  · intro hraw hhash
    unfold markSeenTranslate
    rw [if_neg (by rintro (h | h); exacts [hraw h, hhash h])]
    refine ⟨rfl, ?_⟩
    simp only [markSeenTranslate, if_neg (show ¬(Sum.inl tlid ∈ s.seen ∨
      Sum.inr (hash64 tlid) ∈ s.seen) by rintro (h | h); exacts [hraw h, hhash h])]
    cases hash_seen with
    | true => simp [Finset.card_insert_of_not_mem hhash]
    | false => simp [Finset.card_insert_of_not_mem hraw]
  · intro hmem
    unfold markSeenTranslate
    rw [if_pos hmem]
  · intro hs2
    by_cases hmem : Sum.inl tlid ∈ s.seen ∨ Sum.inr (hash64 tlid) ∈ s.seen
    · unfold markSeenTranslate
      simp only [if_pos hmem]
    · have hfirst : markSeenTranslate hash_seen hash64 tlid s =
          { seen := insert (if hash_seen then Sum.inr (hash64 tlid) else Sum.inl tlid)
              s.seen,
            seen_translates_count := s.seen_translates_count + 1,
            new_translates_count := s.new_translates_count + 1 } := by
        unfold markSeenTranslate
        rw [if_neg hmem]
      rw [hfirst]
      unfold markSeenTranslate
      rw [if_pos ?_]
      cases hash_seen with
      | true => right; simp
      | false => left; simp
  · intro node ctx hctx
    unfold EndTranslate.execute
    rw [hctx]
    exact ⟨rfl, rfl⟩
  · intro tr sayResult node ctx hid hpath
    unfold TranslateSay.execute
    rcases hpath with hlang | hself
    · cases hl : node.language with
      | none => exact absurd hl hlang
      | some lang => rw [hid]
    · cases hl : node.language with
      | none => rw [hself, if_pos rfl, hid]
      | some lang => rw [hid]

/-- Witness for C6: recording the identifier "id1" in an empty
persistent state under the raw-key policy adds the raw key and bumps
both counters, and a second recording leaves the state unchanged. -/
theorem c6_seen_translates_witness :
    markSeenTranslate false (fun _ => 77) "id1" ⟨∅, 5, 2⟩ =
        { seen := insert (if false then Sum.inr ((fun (_ : String) => 77) "id1")
            else Sum.inl "id1") ∅,
          seen_translates_count := 6, new_translates_count := 3 }
    ∧ markSeenTranslate false (fun _ => 77) "id1"
        (markSeenTranslate false (fun _ => 77) "id1" ⟨∅, 5, 2⟩) =
        markSeenTranslate false (fun _ => 77) "id1" ⟨∅, 5, 2⟩ :=
  ⟨((c6_seen_translates false (fun _ => 77) "id1" ⟨∅, 5, 2⟩).1 (by decide)
      (by decide)).1,
   (c6_seen_translates false (fun _ => 77) "id1" ⟨∅, 5, 2⟩).2.2.1 false⟩

/-- The chooser entries are the menu items in declaration order,
indexed from `i`: each item with a block keeps its guard and its
declaration index as identity, each blockless item keeps its guard with
identity none unless the narrator-menu policy diverts it, and the
narration lines are exactly the diverted captions in order. -/
theorem buildMenuEntries_spec (narrator_menu : Bool) (filt : String → String)
    (items : List MenuItem) (i : Nat) :
    buildMenuEntries narrator_menu filt items i =
      ((items.enumFrom i).filterMap fun p =>
        match p.2.block with
        | some _ => some ⟨filt p.2.label, p.2.condition, some p.1⟩
        | none =>
          if narrator_menu ∧ filt p.2.label ≠ "" then none
          else some ⟨filt p.2.label, p.2.condition, none⟩,
       items.filterMap fun item =>
        match item.block with
        | some _ => none
        | none =>
          if narrator_menu ∧ filt item.label ≠ "" then some (filt item.label)
          else none) := by
  induction items generalizing i with
  | nil => rfl
  | cons item rest ih =>
    simp only [buildMenuEntries, ih (i + 1), List.enumFrom_cons, List.filterMap_cons]
    cases hblk : item.block with
    | some blk => simp
    | none =>
      by_cases hn : narrator_menu ∧ filt item.label ≠ ""
      · simp [hn]
      · simp [hn]

/-- Claim C7: `Menu.execute` hands the external chooser the choice list
in exactly the declaration order of the menu items, guards included,
with blockless captions diverted to narration under the narrator-menu
policy; when the chooser returns a choice the first node of that
choice's sub-block becomes the context's next node, and when it returns
none the next node is the statement after the menu. -/
theorem c7_menu_execute (narrator_menu : Bool) (filt : String → String)
    (evalArgs : String → Except Unit (PyValue × PyValue))
    (chooser : List MenuEntry → Option Nat) (m : MenuNode) (ctx : Context) :
    (buildMenuEntries narrator_menu filt m.items 0).1 =
      ((m.items.enumFrom 0).filterMap fun p =>
        match p.2.block with
        | some _ => some ⟨filt p.2.label, p.2.condition, some p.1⟩
        | none =>
          if narrator_menu ∧ filt p.2.label ≠ "" then none
          else some ⟨filt p.2.label, p.2.condition, none⟩)
    ∧ (buildMenuEntries narrator_menu filt m.items 0).2 =
        (m.items.filterMap fun item =>
          match item.block with
          | some _ => none
          | none =>
            if narrator_menu ∧ filt item.label ≠ "" then some (filt item.label)
            else none)
    ∧ (∀ i item b bs, m.arguments = none →
        evalItemArgs narrator_menu filt evalArgs m.itemArguments m.items 0 = .ok () →
        chooser (buildMenuEntries narrator_menu filt m.items 0).1 = some i →
        m.items.get? i = some item → item.block = some (b :: bs) →
        Menu.execute narrator_menu filt evalArgs chooser m ctx =
          .ok { ctx with next_node := some b })
    ∧ (m.arguments = none →
        evalItemArgs narrator_menu filt evalArgs m.itemArguments m.items 0 = .ok () →
        chooser (buildMenuEntries narrator_menu filt m.items 0).1 = none →
        Menu.execute narrator_menu filt evalArgs chooser m ctx =
          .ok { ctx with next_node := m.next }) := by
  refine ⟨congrArg Prod.fst (buildMenuEntries_spec narrator_menu filt m.items 0),
    congrArg Prod.snd (buildMenuEntries_spec narrator_menu filt m.items 0), ?_, ?_⟩
  · intro i item b bs hargs hitems hchoice hget hblock
    unfold Menu.execute
    rw [hargs]
    simp only [hitems, hchoice, hget, hblock]
  · intro hargs hitems hchoice
    unfold Menu.execute
    rw [hargs]
    simp only [hitems, hchoice]

/-- Witness for C7: a three-item menu whose chooser picks the second
presented entry; control transfers to that entry's block head. -/
theorem c7_menu_execute_witness :
    Menu.execute false (fun s => s) (fun _ => .error ())
      (fun es => match es with | _ :: e :: _ => e.value | _ => none)
      ⟨[⟨"a", "False", some [10]⟩, ⟨"b", "True", some [20, 21]⟩,
        ⟨"c", "True", some [30]⟩], none, fun _ => none, some 99⟩
      ⟨none, [], [], false, false, none, none⟩ =
      .ok { (⟨none, [], [], false, false, none, none⟩ : Context) with
              next_node := some 20 } :=
  (c7_menu_execute false (fun s => s) (fun _ => .error ())
    (fun es => match es with | _ :: e :: _ => e.value | _ => none)
    ⟨[⟨"a", "False", some [10]⟩, ⟨"b", "True", some [20, 21]⟩,
      ⟨"c", "True", some [30]⟩], none, fun _ => none, some 99⟩
    ⟨none, [], [], false, false, none, none⟩).2.2.1 1 ⟨"b", "True", some [20, 21]⟩
    20 [21] rfl rfl rfl rfl rfl

/-- Counterexample for C8: these two Say nodes, constructed
identically except for the `interact` flag (a field `Say.execute`
reads), have equal diff tuples — `Say.diff_info` is only
`(Say, who, what)`. -/
theorem c8_diff_info_counterexample :
    Say.diffInfo (Say.mkNode (fun _ => false) (some "e") "hi" none true none none
        none none) =
      Say.diffInfo (Say.mkNode (fun _ => false) (some "e") "hi" none false none none
        none none)
    ∧ (Say.mkNode (fun _ => false) (some "e") "hi" none true none none
        none none).interact = true
    ∧ (Say.mkNode (fun _ => false) (some "e") "hi" none false none none
        none none).interact = false := by
  refine ⟨rfl, rfl, rfl⟩

/-- Claim C8 (amended): `Say.diff_info` is determined by, and
distinguishes exactly, the stored speaker and dialogue text: two Say
nodes have equal diff tuples iff their `who` and `what` fields agree,
so nodes constructed from identical source input have equal tuples and
changing only the dialogue text always changes the tuple, while nodes
differing only in the with-transition, interact flag, attributes, or
arguments share a tuple. -/
theorem c8_say_diff_info (n1 n2 : SayNode) (isWord : String → Bool)
    (who : Option String) (what : String) :
    (Say.diffInfo n1 = Say.diffInfo n2 ↔ n1.who = n2.who ∧ n1.what = n2.what)
    ∧ (∀ w1 i1 a1 ar1 t1 id1 w2 i2 a2 ar2 t2 id2,
        Say.diffInfo (Say.mkNode isWord who what w1 i1 a1 ar1 t1 id1) =
          Say.diffInfo (Say.mkNode isWord who what w2 i2 a2 ar2 t2 id2))
    ∧ (∀ what2, what ≠ what2 →
        Say.diffInfo (Say.mkNode isWord who what none true none none none none) ≠
          Say.diffInfo (Say.mkNode isWord who what2 none true none none none none)) := by
  refine ⟨?_, ?_, ?_⟩
  · unfold Say.diffInfo
    simp
  · intro w1 i1 a1 ar1 t1 id1 w2 i2 a2 ar2 t2 id2
    unfold Say.diffInfo Say.mkNode
    rfl
  · intro what2 hne h
    apply hne
    have h2 := congrArg
      (fun d => match d with | DiffInfo.say _ w => w | _ => "") h
    simpa [Say.diffInfo, Say.mkNode] using h2

/-- Witness for C8 at two concrete Say nodes differing only in the
dialogue text. -/
theorem c8_say_diff_info_witness :
    Say.diffInfo (Say.mkNode (fun _ => false) (some "e") "hi" none true none none
        none none) ≠
      Say.diffInfo (Say.mkNode (fun _ => false) (some "e") "bye" none true none none
        none none) :=
  (c8_say_diff_info
    (Say.mkNode (fun _ => false) (some "e") "hi" none true none none none none)
    (Say.mkNode (fun _ => false) (some "e") "bye" none true none none none none)
    (fun _ => false) (some "e") "hi").2.2 "bye" (by decide)

/-- Counterexample for C9: at this concrete Say node whose speaker
expression resolves through neither store and whose evaluation fails,
`Say.scry` raises the "Sayer is not defined" exception past its own
boundary rather than treating the field as unknown. -/
theorem c9_scry_counterexample :
    Say.scry ⟨false, fun _ => none, fun _ => none⟩ (fun _ => .error ())
      (fun _ => none) (fun _ _ r => r)
      ⟨some "ch", true, "hi", none, true, none, none, none, none, false, none⟩ =
      .error (.exception "Sayer is not defined.") := by
  rfl

/-- Claim C9 (amended): the base `Node.scry` is total and `Scry.next`
swallows every error a chained `scry` raises, returning none, and
`Say.scry` swallows errors while computing the `multiple` field; but
`Say.scry` itself raises exactly when `eval_who` cannot resolve the
speaker, so the speaker-resolution error does escape `Say.scry` and is
only caught at the `Scry.next` boundary. -/
theorem c9_scry_boundary (st : Stores) (pyEval : String → Except Unit PyValue)
    (multipleOf : Option String → Option PyValue)
    (scrySayExt : Option PyValue → String → ScryData → ScryData) (n : SayNode)
    (scryOf : NodeId → Except RenpyError ScryData) (s : ScryData) :
    (n.who = none → ∃ r, Say.scry st pyEval multipleOf scrySayExt n = .ok r)
    ∧ ((∃ e, Say.scry st pyEval multipleOf scrySayExt n = .error e) ↔
        ∃ e, eval_who st pyEval n.who n.who_fast = .error e)
    ∧ (∀ m e, s.nextNode = some m → scryOf m = .error e →
        ScryData.nextScry s scryOf = none)
    ∧ (s.nextNode = none → ScryData.nextScry s scryOf = none) := by
  refine ⟨?_, ?_, ?_, ?_⟩
  · intro hwho
    unfold Say.scry
    rw [show eval_who st pyEval n.who n.who_fast = .ok none by
      unfold eval_who; rw [hwho]]
    cases hint : n.interact <;> simp [hint]
  · constructor
    · rintro ⟨e, he⟩
      refine ⟨e, ?_⟩
      unfold Say.scry at he
      cases hev : eval_who st pyEval n.who n.who_fast with
      | error e2 =>
        rw [hev] at he
        simpa using he
      | ok who =>
        rw [hev] at he
        cases hint : n.interact <;> rw [hint] at he <;> simp at he
    · rintro ⟨e, he⟩
      refine ⟨e, ?_⟩
      unfold Say.scry
      rw [he]
  · intro m e hm he
    simp only [ScryData.nextScry, hm, he]
  · intro hm
    unfold ScryData.nextScry
    rw [hm]

/-- Witness for C9: a concrete speaker-less Say scries without raising,
and a concrete Scry record whose chained scry raises yields none from
`Scry.next`. -/
theorem c9_scry_boundary_witness :
    (∃ r, Say.scry ⟨false, fun _ => none, fun _ => none⟩ (fun _ => .error ())
        (fun _ => none) (fun _ _ r => r)
        ⟨none, false, "hi", none, true, none, none, none, none, false, none⟩ = .ok r)
    ∧ ScryData.nextScry
        ⟨some 3, false, false, false, none, .unknown, none⟩
        (fun _ => .error .evalError) = none :=
  ⟨(c9_scry_boundary ⟨false, fun _ => none, fun _ => none⟩ (fun _ => .error ())
      (fun _ => none) (fun _ _ r => r)
      ⟨none, false, "hi", none, true, none, none, none, none, false, none⟩
      (fun _ => .error .evalError)
      ⟨some 3, false, false, false, none, .unknown, none⟩).1 rfl,
   (c9_scry_boundary ⟨false, fun _ => none, fun _ => none⟩ (fun _ => .error ())
      (fun _ => none) (fun _ _ r => r)
      ⟨none, false, "hi", none, true, none, none, none, none, false, none⟩
      (fun _ => .error .evalError)
      ⟨some 3, false, false, false, none, .unknown, none⟩).2.2.1 3 .evalError rfl rfl⟩

/-- Processing a worklist `q1 ++ q2` first emits the unseen nodes of
`q1`, with the successors collected from `q1` appended behind `q2`. -/
theorem getReachableNodes_append {n : Nat} (g : Fin n → List (Fin n))
    (v : Fin n → Fin n → Bool) (q1 : List (Fin n)) :
    ∀ (q2 : List (Fin n)) (seen : Finset (Fin n)),
    getReachableNodes g v (q1 ++ q2) seen =
      emitOut q1 seen ++
        getReachableNodes g v (q2 ++ emitSucc g v q1 seen) (emitSeen q1 seen) := by
  induction q1 with
  | nil =>
    intro q2 seen
    simp [emitOut, emitSucc, emitSeen]
  | cons a l ih =>
    intro q2 seen
    by_cases ha : a ∈ seen
    · rw [List.cons_append, getReachableNodes, if_pos ha, ih q2 seen]
      simp [emitOut, emitSucc, emitSeen, if_pos ha]
    · rw [List.cons_append, getReachableNodes, if_neg ha, List.append_assoc,
        ih _ (insert a seen)]
      simp only [emitOut, emitSucc, emitSeen, if_neg ha, List.cons_append,
        List.append_assoc]

/-- The queue-based traversal equals the layered breadth-first
reference traversal. -/
theorem getReachableNodes_eq_bfsLayers {n : Nat} (g : Fin n → List (Fin n))
    (v : Fin n → Fin n → Bool) (q : List (Fin n)) (seen : Finset (Fin n)) :
    getReachableNodes g v q seen = bfsLayers g v q seen := by
  induction q, seen using bfsLayers.induct g v with
  | case1 seen => simp [getReachableNodes, bfsLayers]
  | case2 frontier seen h ih =>
    have happ := getReachableNodes_append g v frontier [] seen
    rw [List.append_nil, List.nil_append] at happ
    rw [happ, ih]
    conv_rhs => rw [bfsLayers]
    rw [dif_neg h]

/-- Every node in the traversal result was unseen when the traversal
started. -/
theorem getReachableNodes_not_mem_seen {n : Nat} (g : Fin n → List (Fin n))
    (v : Fin n → Fin n → Bool) (q : List (Fin n)) (seen : Finset (Fin n)) :
    ∀ x ∈ getReachableNodes g v q seen, x ∉ seen := by
  induction q, seen using getReachableNodes.induct g v with
  | case1 seen => simp [getReachableNodes]
  | case2 node rest seen hmem ih =>
    rw [getReachableNodes, if_pos hmem]
    exact ih
  | case3 node rest seen hmem ih =>
    rw [getReachableNodes, if_neg hmem]
    intro x hx
    rcases List.mem_cons.mp hx with hx | hx
    · exact hx ▸ hmem
    · intro hxseen
      exact ih x hx (Finset.mem_insert_of_mem hxseen)

/-- The traversal result contains each node at most once. -/
theorem getReachableNodes_nodup {n : Nat} (g : Fin n → List (Fin n))
    (v : Fin n → Fin n → Bool) (q : List (Fin n)) (seen : Finset (Fin n)) :
    (getReachableNodes g v q seen).Nodup := by
  induction q, seen using getReachableNodes.induct g v with
  | case1 seen => simp [getReachableNodes]
  | case2 node rest seen hmem ih =>
    rw [getReachableNodes, if_pos hmem]
    exact ih
  | case3 node rest seen hmem ih =>
    rw [getReachableNodes, if_neg hmem]
    refine List.nodup_cons.mpr ⟨fun hmem2 => ?_, ih⟩
    exact getReachableNodes_not_mem_seen g v _ _ node hmem2
      (Finset.mem_insert_self node seen)

/-- The nodes emitted from one worklist segment are its
first-occurrence deduplication, restricted to unseen nodes. -/
theorem emitOut_eq_dedupFirst {n : Nat} (q : List (Fin n)) :
    ∀ (seen : Finset (Fin n)),
    emitOut q seen = dedupFirst (q.filter (fun x => decide (x ∉ seen))) := by
  induction q with
  | nil => intro seen; simp [emitOut, dedupFirst]
  | cons a l ih =>
    intro seen
    by_cases ha : a ∈ seen
    · rw [emitOut, if_pos ha, List.filter_cons, if_neg (by simp [ha])]
      exact ih seen
    · rw [emitOut, if_neg ha, List.filter_cons, if_pos (by simp [ha]), dedupFirst,
        ih (insert a seen)]
      congr 1
      rw [List.filter_filter]
      refine congrArg dedupFirst (List.filter_congr fun x _ => ?_)
      by_cases hx : x ∈ seen <;> by_cases hxa : x = a <;>
        simp [hx, hxa, Finset.mem_insert]

/-- Claim C1: for every node graph (cyclic ones included, since the
graph is arbitrary and the traversal is a total function), every
pairwise filter predicate and every entry list, `get_reachable_nodes`
returns a list containing each node at most once, whose order is the
layered breadth-first reference order — the entry nodes first, in
their given order without duplicates, then the discovered nodes level
by level — and two calls with the same entry list and filter return
the same list. -/
theorem c1_get_reachable_nodes {n : Nat} (g : Fin n → List (Fin n))
    (v : Fin n → Fin n → Bool) (entries : List (Fin n)) :
    (getReachableNodes g v entries ∅).Nodup
    ∧ getReachableNodes g v entries ∅ = bfsLayers g v entries ∅
    ∧ (∃ rest, getReachableNodes g v entries ∅ = dedupFirst entries ++ rest)
    ∧ (∀ entries2 v2, entries2 = entries → v2 = v →
        getReachableNodes g v2 entries2 ∅ = getReachableNodes g v entries ∅) := by
  refine ⟨getReachableNodes_nodup g v entries ∅,
    getReachableNodes_eq_bfsLayers g v entries ∅, ?_, ?_⟩
  · refine ⟨getReachableNodes g v (emitSucc g v entries ∅) (emitSeen entries ∅), ?_⟩
    have happ := getReachableNodes_append g v entries [] ∅
    rw [List.append_nil, List.nil_append] at happ
    rw [happ, emitOut_eq_dedupFirst]
    congr 2
    simp
  · rintro e2 v2 rfl rfl
    rfl

/-- Witness for C1 at a concrete two-node cyclic graph (node 0 reaches
node 1 and node 1 reaches node 0). -/
theorem c1_get_reachable_nodes_witness :
    (getReachableNodes (fun i : Fin 2 => [i + 1]) (fun _ _ => true) [0] ∅).Nodup
    ∧ getReachableNodes (fun i : Fin 2 => [i + 1]) (fun _ _ => true) [0] ∅ =
        getReachableNodes (fun i : Fin 2 => [i + 1]) (fun _ _ => true) [0] ∅ :=
  ⟨(c1_get_reachable_nodes (fun i : Fin 2 => [i + 1]) (fun _ _ => true) [0]).1,
   (c1_get_reachable_nodes (fun i : Fin 2 => [i + 1]) (fun _ _ => true) [0]).2.2.2
     [0] (fun _ _ => true) rfl rfl⟩

end Spec2Proof
